import Mathlib

/-! Shallow embedding of the auction/bidding subsystem of the
solana-artisan-plaza repository (src/services/biddingService.ts and the
payment stubs of src/services/solanaService.ts), together with proofs of
the behavioural claims about it.

Conventions of the embedding:
* JavaScript numbers carrying SOL amounts are modelled as rationals.
* The two static JS Maps (auctions, bids) are modelled as insertion-ordered
  association lists, matching JS Map iteration order; Map.get is first
  match, Map.set updates in place when the key exists and appends otherwise.
* Sources of nondeterminism in the code (Date.now(), crypto.randomUUID(),
  the network result of SolanaService.processBidPayment) are passed in as
  explicit parameters.
* SolanaService.finalizeAuction and SolanaService.refundBid are logging
  stubs returning true; endAuction records which of them it invoked.
* JS truthiness matters in endAuction: auction.reservePrice is falsy when
  it is undefined or 0, and the code guards the finalize branch with it.
-/

namespace ArtisanPlaza

/-- Status field of a bid, per the Bid interface in biddingService.ts. -/
inductive BidStatus
  | active
  | won
  | outbid
  | cancelled
deriving DecidableEq

/-- Status field of an auction, per the Auction interface. -/
inductive AuctionStatus
  | active
  | ended
  | cancelled
deriving DecidableEq

/-- One bid record, per the Bid interface in biddingService.ts. -/
structure Bid where
  id : String
  nftId : String
  bidder : String
  amount : ℚ
  timestamp : ℕ
  status : BidStatus
deriving DecidableEq

/-- One auction record, per the Auction interface in biddingService.ts.
reservePrice is the optional field `reservePrice?: number`. -/
structure Auction where
  id : String
  nftId : String
  seller : String
  startingPrice : ℚ
  currentPrice : ℚ
  reservePrice : Option ℚ
  startTime : ℕ
  endTime : ℕ
  status : AuctionStatus
  highestBid : Option Bid
  totalBids : ℕ
deriving DecidableEq

/-- The connected-wallet state the service reads: wallet.connected and
wallet.publicKey (None models a null publicKey). -/
structure Wallet where
  connected : Bool
  publicKey : Option String
deriving DecidableEq

/-- The two static Maps of BiddingService: auctions keyed by auction id,
and per-auction bid lists keyed by auction id.  Association lists keep the
JS Map insertion order, which cancelBid and getUserBids iterate. -/
structure BiddingState where
  auctions : List (String × Auction)
  bids : List (String × List Bid)
deriving DecidableEq

/-- JS Map.get: the value at the first matching key, if any. -/
def mapGet {α : Type} (m : List (String × α)) (k : String) : Option α :=
  match m with
  | [] => none
  | p :: rest => if p.1 = k then some p.2 else mapGet rest k

/-- JS Map.set: update in place when the key is present, else append,
preserving insertion order exactly as a JS Map does. -/
def mapSet {α : Type} (m : List (String × α)) (k : String) (v : α) :
    List (String × α) :=
  match m with
  | [] => [(k, v)]
  | p :: rest => if p.1 = k then (k, v) :: rest else p :: mapSet rest k v

/-- The wallet guard used by every operation:
`!wallet.connected || !wallet.publicKey`. -/
def walletMissing (w : Wallet) : Bool :=
  !w.connected || w.publicKey.isNone

/-- wallet.publicKey.toString() once the guard has passed. -/
def walletAddress (w : Wallet) : String :=
  w.publicKey.getD ""

/-- The distinct failure conditions of placeBid, one per early return of
the method (each surfaces as a toast plus a null result in the code). -/
inductive BidError
  | walletNotConnected
  | auctionNotFound
  | auctionNotActive
  | auctionExpired
  | bidTooLow
  | paymentFailed
deriving DecidableEq

/-- Which payment-adapter stub endAuction invoked after flipping the
status: SolanaService.finalizeAuction on the (already ended) auction,
SolanaService.refundBid on the highest bid, or neither. -/
inductive SettleAction
  | finalize (auction : Auction)
  | refundHighest (bid : Bid)
  | noPayment
deriving DecidableEq

/-- Outcome of endAuction: the code returns false on the first two and
true once the status has been flipped. -/
inductive EndResult
  | auctionNotFound
  | auctionNotActive
  | ended (action : SettleAction)
deriving DecidableEq

/-- Outcome of cancelBid: the code returns false on the first three and
true after refunding; the refunded bid is the SolanaService.refundBid
argument. -/
inductive CancelResult
  | walletNotConnected
  | bidNotFound
  | auctionNotActive
  | cancelled (refunded : Bid)
deriving DecidableEq

/-- BiddingService.createAuction.  Date.now() and crypto.randomUUID() are
passed in as now and newAuctionId. -/
def createAuction (w : Wallet) (nftId : String) (startingPrice : ℚ)
    (durationHours : ℕ) (reservePrice : Option ℚ) (now : ℕ)
    (newAuctionId : String) (s : BiddingState) :
    Option Auction × BiddingState :=
  if walletMissing w then (none, s)
  else
    let auction : Auction :=
      { id := newAuctionId, nftId := nftId, seller := walletAddress w,
        startingPrice := startingPrice, currentPrice := startingPrice,
        reservePrice := reservePrice, startTime := now,
        endTime := now + durationHours * 60 * 60 * 1000,
        status := .active, highestBid := none, totalBids := 0 }
    (some auction,
      { auctions := mapSet s.auctions newAuctionId auction,
        bids := mapSet s.bids newAuctionId [] })

/-- BiddingService.placeBid.  now stands for both Date.now() reads (the
expiry check and the bid timestamp), newBidId for crypto.randomUUID(), and
paymentSucceeds for the awaited result of
SolanaService.processBidPayment. -/
def placeBid (w : Wallet) (auctionId : String) (bidAmount : ℚ) (now : ℕ)
    (newBidId : String) (paymentSucceeds : Bool) (s : BiddingState) :
    Except BidError Bid × BiddingState :=
  if walletMissing w then (.error .walletNotConnected, s)
  else
    match mapGet s.auctions auctionId with
    | none => (.error .auctionNotFound, s)
    | some auction =>
      if auction.status ≠ .active then (.error .auctionNotActive, s)
      else if auction.endTime < now then (.error .auctionExpired, s)
      else if bidAmount ≤ auction.currentPrice then (.error .bidTooLow, s)
      else if !paymentSucceeds then (.error .paymentFailed, s)
      else
        let bid : Bid :=
          { id := newBidId, nftId := auction.nftId,
            bidder := walletAddress w, amount := bidAmount,
            timestamp := now, status := .active }
        let auction' :=
          { auction with
            currentPrice := bidAmount
            highestBid := some bid
            totalBids := auction.totalBids + 1 }
        (.ok bid,
          { auctions := mapSet s.auctions auctionId auction',
            bids := mapSet s.bids auctionId
              (((mapGet s.bids auctionId).getD []) ++ [bid]) })

/-- BiddingService.endAuction.  The status is flipped to ended before the
settlement branch runs, exactly as in the code; the chosen SettleAction
records which payment stub was awaited.  Note the JS truthiness guard:
the finalize branch requires auction.reservePrice to be truthy (set and
nonzero), since the condition is
auction.highestBid and auction.reservePrice and
auction.highestBid.amount greater-or-equal auction.reservePrice. -/
def endAuction (auctionId : String) (s : BiddingState) :
    EndResult × BiddingState :=
  match mapGet s.auctions auctionId with
  | none => (.auctionNotFound, s)
  | some auction =>
    if auction.status ≠ .active then (.auctionNotActive, s)
    else
      let auction' := { auction with status := .ended }
      let action : SettleAction :=
        match auction.highestBid with
        | some hb =>
          match auction.reservePrice with
          | some r =>
              if r ≠ 0 ∧ r ≤ hb.amount then .finalize auction'
              else .refundHighest hb
          | none => .refundHighest hb
        | none => .noPayment
      (.ended action, { s with auctions := mapSet s.auctions auctionId auction' })

/-- The inner find of cancelBid over one auction's bid list: the first bid
whose id matches bidId and whose bidder matches the caller's address. -/
def findBidIn (bs : List Bid) (bidId addr : String) : Option Bid :=
  match bs with
  | [] => none
  | b :: rest =>
      if b.id = bidId ∧ b.bidder = addr then some b
      else findBidIn rest bidId addr

/-- The search loop of cancelBid over this.bids.entries() in insertion
order, returning the owning auction id together with the found bid. -/
def findUserBid (entries : List (String × List Bid)) (bidId addr : String) :
    Option (String × Bid) :=
  match entries with
  | [] => none
  | (aid, bs) :: rest =>
    match findBidIn bs bidId addr with
    | some b => some (aid, b)
    | none => findUserBid rest bidId addr

/-- The in-place mutation foundBid.status = cancelled, seen from the bid
list: the first bid matching id and bidder gets status cancelled. -/
def cancelFirstMatch (bs : List Bid) (bidId addr : String) : List Bid :=
  match bs with
  | [] => []
  | b :: rest =>
      if b.id = bidId ∧ b.bidder = addr then
        { b with status := .cancelled } :: rest
      else b :: cancelFirstMatch rest bidId addr

/-- The JS reduce picking the new highest bid:
activeBids.reduce taking prev when prev.amount is strictly greater than
current.amount and current otherwise, folded left with the first element
as the initial accumulator. -/
def reduceHighest (prev : Bid) (l : List Bid) : Bid :=
  match l with
  | [] => prev
  | c :: rest => reduceHighest (if c.amount < prev.amount then prev else c) rest

/-- BiddingService.cancelBid.  The refunded bid carried by the cancelled
outcome is the foundBid passed to SolanaService.refundBid (still with
status active, as the mutation happens after the refund call). -/
def cancelBid (w : Wallet) (bidId : String) (s : BiddingState) :
    CancelResult × BiddingState :=
  if walletMissing w then (.walletNotConnected, s)
  else
    match findUserBid s.bids bidId (walletAddress w) with
    | none => (.bidNotFound, s)
    | some (auctionId, foundBid) =>
      match mapGet s.auctions auctionId with
      | none => (.auctionNotActive, s)
      | some auction =>
        if auction.status ≠ .active then (.auctionNotActive, s)
        else
          let newBids :=
            cancelFirstMatch ((mapGet s.bids auctionId).getD []) bidId
              (walletAddress w)
          let s1 : BiddingState := { s with bids := mapSet s.bids auctionId newBids }
          match auction.highestBid with
          | some hb =>
            if hb.id = bidId then
              let auctionBids := (mapGet s1.bids auctionId).getD []
              let activeBids :=
                auctionBids.filter (fun b => b.status == BidStatus.active)
              match activeBids with
              | [] =>
                let auction' :=
                  { auction with
                    highestBid := none
                    currentPrice := auction.startingPrice }
                (.cancelled foundBid,
                  { s1 with auctions := mapSet s.auctions auctionId auction' })
              | h :: t =>
                let newHighest := reduceHighest h t
                let auction' :=
                  { auction with
                    highestBid := some newHighest
                    currentPrice := newHighest.amount }
                (.cancelled foundBid,
                  { s1 with auctions := mapSet s.auctions auctionId auction' })
            else (.cancelled foundBid, s1)
          | none => (.cancelled foundBid, s1)

/-- BiddingService.getAuction. -/
def getAuction (auctionId : String) (s : BiddingState) : Option Auction :=
  mapGet s.auctions auctionId

/-- BiddingService.getAuctionBids. -/
def getAuctionBids (auctionId : String) (s : BiddingState) : List Bid :=
  (mapGet s.bids auctionId).getD []

/-- BiddingService.getUserBids: across all bid lists in map order, the
bids whose bidder is the given address and whose status is active. -/
def getUserBids (userAddress : String) (s : BiddingState) : List Bid :=
  (s.bids.map (fun p =>
    p.2.filter (fun b =>
      b.bidder == userAddress && b.status == BidStatus.active))).flatten

/-- The validation prefix of placeBid: every check the code performs
before suspending at the await of SolanaService.processBidPayment.
Returns the failure it would surface, or none when validation passes. -/
def placeBidValidate (w : Wallet) (auctionId : String) (bidAmount : ℚ)
    (now : ℕ) (s : BiddingState) : Option BidError :=
  if walletMissing w then some .walletNotConnected
  else
    match mapGet s.auctions auctionId with
    | none => some .auctionNotFound
    | some auction =>
      if auction.status ≠ .active then some .auctionNotActive
      else if auction.endTime < now then some .auctionExpired
      else if bidAmount ≤ auction.currentPrice then some .bidTooLow
      else none

/-- The commit suffix of placeBid, run when the payment await resumes: the
code mutates the auction through the live reference obtained before the
suspension, which is the object stored in the map, so the write applies to
the state current at commit time, with no re-validation. -/
def placeBidCommit (w : Wallet) (auctionId : String) (bidAmount : ℚ)
    (now : ℕ) (newBidId : String) (s : BiddingState) :
    Option Bid × BiddingState :=
  match mapGet s.auctions auctionId with
  | none => (none, s)
  | some auction =>
    let bid : Bid :=
      { id := newBidId, nftId := auction.nftId, bidder := walletAddress w,
        amount := bidAmount, timestamp := now, status := .active }
    let auction' :=
      { auction with
        currentPrice := bidAmount
        highestBid := some bid
        totalBids := auction.totalBids + 1 }
    (some bid,
      { auctions := mapSet s.auctions auctionId auction',
        bids := mapSet s.bids auctionId
          (((mapGet s.bids auctionId).getD []) ++ [bid]) })

/-- The states reachable from the empty service by any sequence of the
four mutating operations, with arbitrary arguments and arbitrary payment
outcomes. -/
inductive Reachable : BiddingState → Prop
  | init : Reachable { auctions := [], bids := [] }
  | create (w : Wallet) (nftId : String) (sp : ℚ) (dur : ℕ) (rp : Option ℚ)
      (now : ℕ) (nid : String) (s : BiddingState) : Reachable s →
      Reachable (createAuction w nftId sp dur rp now nid s).2
  | place (w : Wallet) (aid : String) (amt : ℚ) (now : ℕ) (nid : String)
      (pay : Bool) (s : BiddingState) : Reachable s →
      Reachable (placeBid w aid amt now nid pay s).2
  | endA (aid : String) (s : BiddingState) : Reachable s →
      Reachable (endAuction aid s).2
  | cancel (w : Wallet) (bidId : String) (s : BiddingState) : Reachable s →
      Reachable (cancelBid w bidId s).2

/-- The run behind the C1 failing input: alice creates auction a1 with no
reservePrice, bob places a bid of 3, which becomes the highest bid. -/
def c1State : BiddingState :=
  (placeBid { connected := true, publicKey := some "bob" } "a1" 3 5 "b1"
    true
    (createAuction { connected := true, publicKey := some "alice" } "nft1"
      1 24 none 0 "a1" { auctions := [], bids := [] }).2).2

/-- The same run with reservePrice set to 0, which the bid of 3 meets. -/
def c1StateZero : BiddingState :=
  (placeBid { connected := true, publicKey := some "bob" } "a1" 3 5 "b1"
    true
    (createAuction { connected := true, publicKey := some "alice" } "nft1"
      1 24 (some 0) 0 "a1" { auctions := [], bids := [] }).2).2

/-- The sole bid of the C6 witness run. -/
def c6Bid : Bid :=
  { id := "b1", nftId := "nft1", bidder := "bob", amount := 2,
    timestamp := 5, status := .active }

/-- The auction of the C6 witness run after bob's bid of 2. -/
def c6Auction : Auction :=
  { id := "a1", nftId := "nft1", seller := "alice", startingPrice := 1,
    currentPrice := 2, reservePrice := none, startTime := 0,
    endTime := 86400000, status := .active, highestBid := some c6Bid,
    totalBids := 1 }

/-- The C6 witness run: alice creates auction a1 at price 1, bob bids
2. -/
def c6State : BiddingState :=
  (placeBid { connected := true, publicKey := some "bob" } "a1" 2 5
    "b1" true
    (createAuction { connected := true, publicKey := some "alice" } "nft1"
      1 24 none 0 "a1" { auctions := [], bids := [] }).2).2

/-- A tied active bid placed first in the C7 counterexample list. -/
def c7b1 : Bid :=
  { id := "b1", nftId := "n", bidder := "x", amount := 3, timestamp := 1,
    status := .active }

/-- A tied active bid placed second in the C7 counterexample list. -/
def c7b2 : Bid :=
  { id := "b2", nftId := "n", bidder := "y", amount := 3, timestamp := 2,
    status := .active }

/-- The highest bid about to be cancelled in the C7 counterexample. -/
def c7bh : Bid :=
  { id := "bh", nftId := "n", bidder := "carol", amount := 5,
    timestamp := 3, status := .active }

/-- The C7 counterexample auction, currently led by c7bh. -/
def c7Auction : Auction :=
  { id := "a", nftId := "n", seller := "s", startingPrice := 1,
    currentPrice := 5, reservePrice := none, startTime := 0, endTime := 100,
    status := .active, highestBid := some c7bh, totalBids := 3 }

/-- The C7 counterexample store: one auction whose bid list carries the
two tied active bids followed by the highest bid. -/
def c7State : BiddingState :=
  { auctions := [("a", c7Auction)], bids := [("a", [c7b1, c7b2, c7bh])] }

/-- The rational 3.1 written as the explicit normalized fraction 31/10,
so the kernel can evaluate comparisons on it. -/
def ratThreePointOne : ℚ := ⟨31, 10, by decide, by decide⟩

/-- The pre-race auction of the C9 scenario: active, no bids, price 2. -/
def c9Auction : Auction :=
  { id := "a", nftId := "n", seller := "s", startingPrice := 2,
    currentPrice := 2, reservePrice := none, startTime := 0,
    endTime := 1000, status := .active, highestBid := none,
    totalBids := 0 }

/-- The pre-race store of the C9 scenario. -/
def c9State : BiddingState :=
  { auctions := [("a", c9Auction)], bids := [("a", [])] }

/-- The strengthened price invariant behind C2: every stored auction has
currentPrice at least its startingPrice, and every bid recorded in its
list has amount at least that startingPrice. -/
def PriceInv (s : BiddingState) : Prop :=
  ∀ k a, mapGet s.auctions k = some a →
    a.startingPrice ≤ a.currentPrice ∧
    ∀ b ∈ (mapGet s.bids k).getD [], a.startingPrice ≤ b.amount

/-- The ended state of the C3 witness: auction a1 from the C6 run after
endAuction. -/
def c3State : BiddingState := (endAuction "a1" c6State).2

/-- The stored record of auction a1 in the C3 witness state. -/
def c3Auction : Auction := { c6Auction with status := .ended }

/-! Helper lemmas about the store and the list helpers. -/

theorem mapGet_mapSet_self {α : Type} (m : List (String × α)) (k : String)
    (v : α) : mapGet (mapSet m k v) k = some v := by
  induction m with
  | nil => simp [mapGet, mapSet]
  | cons p rest ih =>
      by_cases h : p.1 = k
      · simp [mapGet, mapSet, h]
      · simp [mapGet, mapSet, h, ih]

theorem mapGet_mapSet_ne {α : Type} (m : List (String × α)) (k k' : String)
    (v : α) (h : k' ≠ k) : mapGet (mapSet m k v) k' = mapGet m k' := by
  have hkk : ¬k = k' := fun hh => h hh.symm
  induction m with
  | nil => simp [mapGet, mapSet, hkk]
  | cons p rest ih =>
      by_cases hp : p.1 = k
      · simp [mapGet, mapSet, hp, hkk]
      · simp [mapGet, mapSet, hp, ih]

theorem reduceHighest_mem (prev : Bid) (l : List Bid) :
    reduceHighest prev l ∈ prev :: l := by
  induction l generalizing prev with
  | nil => simp [reduceHighest]
  | cons c rest ih =>
      by_cases h : c.amount < prev.amount
      · have := ih prev
        simp only [reduceHighest, h, if_pos]
        rcases List.mem_cons.1 this with h1 | h1
        · exact List.mem_cons.2 (Or.inl h1)
        · exact List.mem_cons.2 (Or.inr (List.mem_cons.2 (Or.inr h1)))
      · have := ih c
        simp only [reduceHighest, h, if_neg, not_false_iff]
        rcases List.mem_cons.1 this with h1 | h1
        · exact List.mem_cons.2 (Or.inr (List.mem_cons.2 (Or.inl h1)))
        · exact List.mem_cons.2 (Or.inr (List.mem_cons.2 (Or.inr h1)))

theorem reduceHighest_ge (prev : Bid) (l : List Bid) :
    ∀ c ∈ prev :: l, c.amount ≤ (reduceHighest prev l).amount := by
  induction l generalizing prev with
  | nil => simp [reduceHighest]
  | cons c rest ih =>
      intro d hd
      by_cases h : c.amount < prev.amount
      · have hred : reduceHighest prev (c :: rest) = reduceHighest prev rest := by
          simp [reduceHighest, h]
        rw [hred]
        rcases List.mem_cons.1 hd with hd | hd
        · exact hd ▸ ih prev prev (List.mem_cons_self _ _)
        · rcases List.mem_cons.1 hd with hd | hd
          · exact hd ▸ le_trans (le_of_lt h) (ih prev prev (List.mem_cons_self _ _))
          · exact ih prev d (List.mem_cons.2 (Or.inr hd))
      · have hred : reduceHighest prev (c :: rest) = reduceHighest c rest := by
          simp [reduceHighest, h]
        rw [hred]
        rcases List.mem_cons.1 hd with hd | hd
        · exact hd ▸ le_trans (le_of_not_lt h) (ih c c (List.mem_cons_self _ _))
        · exact ih c d hd

theorem reduceHighest_last (prev : Bid) (l : List Bid) :
    ∃ l1 l2, prev :: l = l1 ++ (reduceHighest prev l) :: l2 ∧
      ∀ c ∈ l2, c.amount < (reduceHighest prev l).amount := by
  induction l generalizing prev with
  | nil => exact ⟨[], [], by simp [reduceHighest], by simp⟩
  | cons c rest ih =>
      by_cases h : c.amount < prev.amount
      · have hred : reduceHighest prev (c :: rest) = reduceHighest prev rest := by
          simp [reduceHighest, h]
        obtain ⟨l1, l2, heq, hlt⟩ := ih prev
        cases l1 with
        | nil =>
            simp only [List.nil_append, List.cons.injEq] at heq
            refine ⟨[], c :: l2, ?_, ?_⟩
            · rw [hred, List.nil_append, ← heq.1, ← heq.2]
            · intro x hx
              rw [hred, ← heq.1]
              rcases List.mem_cons.1 hx with hx | hx
              · exact hx ▸ h
              · exact heq.1 ▸ hlt x hx
        | cons y l1t =>
            simp only [List.cons_append, List.cons.injEq] at heq
            refine ⟨prev :: c :: l1t, l2, ?_, ?_⟩
            · rw [hred]
              simp only [List.cons_append, List.cons.injEq, true_and]
              exact heq.2
            · intro x hx
              rw [hred]
              exact hlt x hx
      · have hred : reduceHighest prev (c :: rest) = reduceHighest c rest := by
          simp [reduceHighest, h]
        obtain ⟨l1, l2, heq, hlt⟩ := ih c
        refine ⟨prev :: l1, l2, ?_, ?_⟩
        · rw [hred]
          simp only [List.cons_append, List.cons.injEq, true_and]
          exact heq
        · intro x hx
          rw [hred]
          exact hlt x hx

theorem findBidIn_some (bs : List Bid) (i ad : String) (b : Bid)
    (h : findBidIn bs i ad = some b) :
    b ∈ bs ∧ b.id = i ∧ b.bidder = ad := by
  induction bs with
  | nil => simp [findBidIn] at h
  | cons c rest ih =>
      by_cases hc : c.id = i ∧ c.bidder = ad
      · simp only [findBidIn, if_pos hc, Option.some.injEq] at h
        exact ⟨List.mem_cons.2 (Or.inl h.symm), h ▸ hc⟩
      · simp only [findBidIn, if_neg hc] at h
        obtain ⟨hm, hrest⟩ := ih h
        exact ⟨List.mem_cons.2 (Or.inr hm), hrest⟩

theorem findBidIn_eq_none (bs : List Bid) (i ad : String)
    (h : ∀ b ∈ bs, ¬(b.id = i ∧ b.bidder = ad)) :
    findBidIn bs i ad = none := by
  induction bs with
  | nil => simp [findBidIn]
  | cons c rest ih =>
      have hc := h c (List.mem_cons_self _ _)
      simp only [findBidIn, if_neg hc]
      exact ih (fun b hb => h b (List.mem_cons.2 (Or.inr hb)))

theorem findUserBid_some (es : List (String × List Bid)) (i ad : String)
    (aid : String) (b : Bid) (h : findUserBid es i ad = some (aid, b)) :
    ∃ bs, (aid, bs) ∈ es ∧ b ∈ bs ∧ b.id = i ∧ b.bidder = ad := by
  induction es with
  | nil => simp [findUserBid] at h
  | cons p rest ih =>
      obtain ⟨k, bs⟩ := p
      cases hf : findBidIn bs i ad with
      | some c =>
          simp only [findUserBid, hf, Option.some.injEq, Prod.mk.injEq] at h
          obtain ⟨hm, hi, had⟩ := findBidIn_some bs i ad c hf
          exact ⟨bs, h.1 ▸ List.mem_cons_self _ _, h.2 ▸ hm, h.2 ▸ hi, h.2 ▸ had⟩
      | none =>
          simp only [findUserBid, hf] at h
          obtain ⟨bs', hmem, hrest⟩ := ih h
          exact ⟨bs', List.mem_cons.2 (Or.inr hmem), hrest⟩

theorem findUserBid_eq_none (es : List (String × List Bid)) (i ad : String)
    (h : ∀ p ∈ es, ∀ b ∈ p.2, ¬(b.id = i ∧ b.bidder = ad)) :
    findUserBid es i ad = none := by
  induction es with
  | nil => simp [findUserBid]
  | cons p rest ih =>
      obtain ⟨k, bs⟩ := p
      have hnone : findBidIn bs i ad = none :=
        findBidIn_eq_none bs i ad (h (k, bs) (List.mem_cons_self _ _))
      simp only [findUserBid, hnone]
      exact ih (fun q hq => h q (List.mem_cons.2 (Or.inr hq)))

theorem cancelFirstMatch_amounts (bs : List Bid) (i ad : String) :
    ∀ b' ∈ cancelFirstMatch bs i ad, ∃ b ∈ bs, b'.amount = b.amount := by
  induction bs with
  | nil => simp [cancelFirstMatch]
  | cons c rest ih =>
      intro b' hb'
      by_cases hc : c.id = i ∧ c.bidder = ad
      · simp only [cancelFirstMatch, if_pos hc] at hb'
        rcases List.mem_cons.1 hb' with h1 | h1
        · exact ⟨c, List.mem_cons_self _ _, by simp [h1]⟩
        · exact ⟨b', List.mem_cons.2 (Or.inr h1), rfl⟩
      · simp only [cancelFirstMatch, if_neg hc] at hb'
        rcases List.mem_cons.1 hb' with h1 | h1
        · exact ⟨c, List.mem_cons_self _ _, by simp [h1]⟩
        · obtain ⟨b, hb, heq⟩ := ih b' h1
          exact ⟨b, List.mem_cons.2 (Or.inr hb), heq⟩

theorem findBidIn_split (bs : List Bid) (i ad : String) (b : Bid)
    (h : findBidIn bs i ad = some b) :
    ∃ l1 l2, bs = l1 ++ b :: l2 ∧
      (∀ c ∈ l1, ¬(c.id = i ∧ c.bidder = ad)) ∧
      cancelFirstMatch bs i ad = l1 ++ { b with status := BidStatus.cancelled } :: l2 := by
  induction bs with
  | nil => simp [findBidIn] at h
  | cons c rest ih =>
      by_cases hc : c.id = i ∧ c.bidder = ad
      · simp only [findBidIn, if_pos hc, Option.some.injEq] at h
        subst h
        refine ⟨[], rest, by simp, by simp, ?_⟩
        simp [cancelFirstMatch, if_pos hc]
      · simp only [findBidIn, if_neg hc] at h
        obtain ⟨l1, l2, heq, hnm, hcfm⟩ := ih h
        refine ⟨c :: l1, l2, by simp [heq], ?_, ?_⟩
        · intro d hd
          rcases List.mem_cons.1 hd with hd | hd
          · exact hd ▸ hc
          · exact hnm d hd
        · simp [cancelFirstMatch, if_neg hc, hcfm]

/-! Claim theorems about the embedded operations. -/

/-- C4: every failing placeBid call is atomic over the in-memory store.
Whenever placeBid returns an error (wallet not connected, auction unknown,
auction not active, auction expired, bid too low, or the escrow payment
returning failure), the whole bidding state, hence every auction field and
every bid list, is left unchanged; placeBid is a total function, so no
exception propagates. -/
theorem placeBid_error_preserves_state (w : Wallet) (aid : String) (amt : ℚ)
    (now : ℕ) (nid : String) (pay : Bool) (s : BiddingState) (e : BidError)
    (h : (placeBid w aid amt now nid pay s).1 = .error e) :
    (placeBid w aid amt now nid pay s).2 = s := by
  unfold placeBid at h ⊢
  by_cases hw : walletMissing w
  · simp [hw]
  · simp only [hw, Bool.false_eq_true, if_false] at h ⊢
    cases hA : mapGet s.auctions aid with
    | none => simp [hA]
    | some a =>
        simp only [hA] at h ⊢
        by_cases h1 : a.status ≠ AuctionStatus.active
        · simp [h1]
        · simp only [h1, if_false] at h ⊢
          by_cases h2 : a.endTime < now
          · simp [h2]
          · simp only [h2, if_false] at h ⊢
            by_cases h3 : amt ≤ a.currentPrice
            · simp [h3]
            · simp only [h3, if_false] at h ⊢
              cases pay with
              | false => simp
              | true => simp at h

/-- C4 witness: a placeBid with a disconnected wallet fails and leaves the
empty state untouched. -/
theorem placeBid_error_preserves_state_witness :
    (placeBid { connected := false, publicKey := none } "a" 1 0 "b" true
      { auctions := [], bids := [] }).2 = { auctions := [], bids := [] } :=
  placeBid_error_preserves_state { connected := false, publicKey := none }
    "a" 1 0 "b" true { auctions := [], bids := [] } .walletNotConnected rfl

/-- C5: under the preceding guards (wallet connected, auction found,
active, not expired), placeBid fails with BidTooLow exactly when the
offered amount is at most the auction's currentPrice (ties rejected), and
every bid returned by a successful placeBid has amount strictly greater
than the currentPrice immediately before the call and equal to the
auction's currentPrice immediately after. -/
theorem placeBid_bidTooLow_iff (w : Wallet) (aid : String) (amt : ℚ)
    (now : ℕ) (nid : String) (pay : Bool) (s : BiddingState) (a : Auction)
    (hw : walletMissing w = false)
    (ha : mapGet s.auctions aid = some a)
    (hact : a.status = AuctionStatus.active)
    (hexp : ¬a.endTime < now) :
    ((placeBid w aid amt now nid pay s).1 = .error .bidTooLow ↔
      amt ≤ a.currentPrice) ∧
    (∀ b, (placeBid w aid amt now nid pay s).1 = .ok b →
      a.currentPrice < b.amount ∧ b.amount = amt ∧
      (mapGet (placeBid w aid amt now nid pay s).2.auctions aid).map
        Auction.currentPrice = some b.amount) := by
  have hact' : ¬a.status ≠ AuctionStatus.active := by simp [hact]
  unfold placeBid
  simp only [hw, Bool.false_eq_true, if_false, ha, hact', hexp]
  by_cases h3 : amt ≤ a.currentPrice
  · simp [h3]
  · simp only [h3, if_false]
    cases pay with
    | false => simp
    | true =>
        simp only [Bool.not_true, Bool.false_eq_true, if_false]
        constructor
        · simp [h3]
        · intro b hb
          simp only [Except.ok.injEq] at hb
          subst hb
          refine ⟨lt_of_not_le h3, rfl, ?_⟩
          simp [mapGet_mapSet_self]

/-- C5 witness: on an auction created at price 1, a bid of 3/2 is
accepted, exceeds the prior price, and becomes the new currentPrice. -/
theorem placeBid_bidTooLow_iff_witness :
    (1 : ℚ) < 3 / 2 ∧
    ¬(placeBid { connected := true, publicKey := some "bob" } "a1" (3 / 2) 5
        "b1" true
        (createAuction { connected := true, publicKey := some "alice" }
          "nft1" 1 24 none 0 "a1" { auctions := [], bids := [] }).2).1 =
      .error .bidTooLow := by
  have h := placeBid_bidTooLow_iff { connected := true, publicKey := some "bob" }
    "a1" (3 / 2) 5 "b1" true
    (createAuction { connected := true, publicKey := some "alice" }
      "nft1" 1 24 none 0 "a1" { auctions := [], bids := [] }).2
    { id := "a1", nftId := "nft1", seller := "alice", startingPrice := 1,
      currentPrice := 1, reservePrice := none, startTime := 0,
      endTime := 0 + 24 * 60 * 60 * 1000, status := .active,
      highestBid := none, totalBids := 0 }
    (by decide) (by decide) rfl (by decide)
  refine ⟨by norm_num, ?_⟩
  intro hcontra
  have := h.1.mp hcontra
  norm_num at this

/-- C10: getUserBids returns exactly the bids, across all auctions' bid
lists, whose bidder is the given address and whose status is active; bids
with status won, outbid or cancelled, and bids of other users, never
appear. -/
theorem getUserBids_mem_iff (addr : String) (s : BiddingState) (b : Bid) :
    b ∈ getUserBids addr s ↔
      (∃ aid bs, (aid, bs) ∈ s.bids ∧ b ∈ bs) ∧
        b.bidder = addr ∧ b.status = BidStatus.active := by
  unfold getUserBids
  rw [List.mem_flatten]
  constructor
  · rintro ⟨l, hl, hb⟩
    rw [List.mem_map] at hl
    obtain ⟨⟨aid, bs⟩, hmem, rfl⟩ := hl
    rw [List.mem_filter] at hb
    obtain ⟨hbs, hcond⟩ := hb
    rw [Bool.and_eq_true, beq_iff_eq, beq_iff_eq] at hcond
    exact ⟨⟨aid, bs, hmem, hbs⟩, hcond.1, hcond.2⟩
  · rintro ⟨⟨aid, bs, hmem, hbs⟩, had, hst⟩
    refine ⟨bs.filter (fun x =>
      x.bidder == addr && x.status == BidStatus.active), ?_, ?_⟩
    · rw [List.mem_map]
      exact ⟨(aid, bs), hmem, rfl⟩
    · rw [List.mem_filter, Bool.and_eq_true, beq_iff_eq, beq_iff_eq]
      exact ⟨hbs, had, hst⟩

/-- C1, evaluated at the failing inputs: endAuction on an active auction
holding a highest bid of 3 takes the refund path both when reservePrice is
unset and when it is 0 (which the bid meets), because the finalize guard
requires a truthy reservePrice; the status still flips to ended.  The spec
requires the finalize path in both situations, so the refund branch (whose
own message reads that the reserve was not met) contradicts it. -/
theorem endAuction_no_reserve_takes_refund_path :
    ((endAuction "a1" c1State).1 =
      EndResult.ended (SettleAction.refundHighest
        { id := "b1", nftId := "nft1", bidder := "bob", amount := 3,
          timestamp := 5, status := .active }) ∧
      (mapGet (endAuction "a1" c1State).2.auctions "a1").map
        Auction.status = some AuctionStatus.ended) ∧
    ((endAuction "a1" c1StateZero).1 =
      EndResult.ended (SettleAction.refundHighest
        { id := "b1", nftId := "nft1", bidder := "bob", amount := 3,
          timestamp := 5, status := .active }) ∧
      (mapGet (endAuction "a1" c1StateZero).2.auctions "a1").map
        Auction.status = some AuctionStatus.ended) := by decide

/-- Characterization of a successful cancelBid that hits the auction's
highestBid: the bid list is rewritten by cancelFirstMatch and the new
highest is recomputed from the still-active bids of that rewritten list,
exactly as the code does after re-reading this.bids.get(auctionId). -/
theorem cancelBid_highest_eq (w : Wallet) (bidId : String) (s : BiddingState)
    (aid : String) (b : Bid) (a : Auction) (hb : Bid) (bs : List Bid)
    (hw : walletMissing w = false)
    (hfind : findUserBid s.bids bidId (walletAddress w) = some (aid, b))
    (ha : mapGet s.auctions aid = some a)
    (hact : a.status = AuctionStatus.active)
    (hhb : a.highestBid = some hb)
    (hid : hb.id = bidId)
    (hbs : mapGet s.bids aid = some bs) :
    cancelBid w bidId s =
      (match (cancelFirstMatch bs bidId (walletAddress w)).filter
          (fun x => x.status == BidStatus.active) with
       | [] =>
          (.cancelled b,
            { auctions := mapSet s.auctions aid
                { a with
                  highestBid := none
                  currentPrice := a.startingPrice }
              bids := mapSet s.bids aid
                (cancelFirstMatch bs bidId (walletAddress w)) })
       | h :: t =>
          (.cancelled b,
            { auctions := mapSet s.auctions aid
                { a with
                  highestBid := some (reduceHighest h t)
                  currentPrice := (reduceHighest h t).amount }
              bids := mapSet s.bids aid
                (cancelFirstMatch bs bidId (walletAddress w)) })) := by
  have hact' : ¬a.status ≠ AuctionStatus.active := by simp [hact]
  unfold cancelBid
  simp only [hw, Bool.false_eq_true, if_false, hfind, ha, hact', ite_false,
    hbs, Option.getD_some, hhb, hid, if_true, if_false, ite_true,
    mapGet_mapSet_self]

/-- C6: on an active auction whose bid list holds exactly one active bid,
which is the highestBid, a successful cancelBid of that bid by its bidder
restores currentPrice to startingPrice and clears highestBid, returning
the auction's price state to what it was before the bid was placed. -/
theorem cancelBid_sole_active_roundtrip (w : Wallet) (bidId : String)
    (s : BiddingState) (aid : String) (b : Bid) (a : Auction) (hb : Bid)
    (bs : List Bid)
    (hw : walletMissing w = false)
    (hfind : findUserBid s.bids bidId (walletAddress w) = some (aid, b))
    (ha : mapGet s.auctions aid = some a)
    (hact : a.status = AuctionStatus.active)
    (hhb : a.highestBid = some hb)
    (hid : hb.id = bidId)
    (hbs : mapGet s.bids aid = some bs)
    (hfound : findBidIn bs bidId (walletAddress w) = some b)
    (hsole : bs.filter (fun x => x.status == BidStatus.active) = [b]) :
    (cancelBid w bidId s).1 = CancelResult.cancelled b ∧
    mapGet (cancelBid w bidId s).2.auctions aid =
      some { a with
             highestBid := none
             currentPrice := a.startingPrice } := by
  obtain ⟨l1, l2, hbseq, hnm, hcfm⟩ :=
    findBidIn_split bs bidId (walletAddress w) b hfound
  have hbact : b.status = BidStatus.active := by
    have hmem : b ∈ bs.filter (fun x => x.status == BidStatus.active) := by
      rw [hsole]
      exact List.mem_cons.2 (Or.inl rfl)
    have := (List.mem_filter.1 hmem).2
    simpa using this
  have hsplit : l1.filter (fun x => x.status == BidStatus.active) ++
      b :: l2.filter (fun x => x.status == BidStatus.active) = [b] := by
    rw [← hsole, hbseq]
    simp [List.filter_append, hbact]
  have hfl : l1.filter (fun x => x.status == BidStatus.active) = [] ∧
      l2.filter (fun x => x.status == BidStatus.active) = [] := by
    cases hfl1 : l1.filter (fun x => x.status == BidStatus.active) with
    | nil =>
        rw [hfl1, List.nil_append, List.cons_inj_right] at hsplit
        exact ⟨rfl, hsplit⟩
    | cons y ys =>
        rw [hfl1] at hsplit
        simp at hsplit
  have hempty : (cancelFirstMatch bs bidId (walletAddress w)).filter
      (fun x => x.status == BidStatus.active) = [] := by
    rw [hcfm]
    simp [List.filter_append, hfl.1, hfl.2]
  rw [cancelBid_highest_eq w bidId s aid b a hb bs hw hfind ha hact hhb hid
    hbs, hempty]
  exact ⟨rfl, mapGet_mapSet_self _ _ _⟩

/-- C6 witness: bob cancels his sole bid; the price returns to the
starting price and the highest bid is cleared. -/
theorem cancelBid_sole_active_roundtrip_witness :
    (cancelBid { connected := true, publicKey := some "bob" } "b1"
      c6State).1 = CancelResult.cancelled c6Bid ∧
    mapGet (cancelBid { connected := true, publicKey := some "bob" } "b1"
      c6State).2.auctions "a1" =
      some { c6Auction with
             highestBid := none
             currentPrice := c6Auction.startingPrice } :=
  cancelBid_sole_active_roundtrip
    { connected := true, publicKey := some "bob" } "b1" c6State "a1" c6Bid
    c6Auction c6Bid [c6Bid] (by decide) (by decide) (by decide) (by decide)
    (by decide) (by decide) (by decide) (by decide) (by decide)

/-- C7 counterexample: after carol cancels the highest bid, the remaining
active bids are c7b1 and c7b2, tied at amount 3 with c7b1 first in
bid-list order, yet the recomputed highestBid is c7b2 — the last
encountered maximum wins, not the first, because the JS reduce keeps the
accumulator only when it is strictly greater than the current element. -/
theorem cancelBid_tie_last_wins_counterexample :
    (cancelFirstMatch [c7b1, c7b2, c7bh] "bh" "carol").filter
      (fun x => x.status == BidStatus.active) = [c7b1, c7b2] ∧
    c7b1.amount = c7b2.amount ∧
    (mapGet (cancelBid { connected := true, publicKey := some "carol" }
      "bh" c7State).2.auctions "a").bind Auction.highestBid = some c7b2 ∧
    c7b2 ≠ c7b1 := by decide

/-- C7 amended: when cancelBid cancels the auction's current highestBid
and the rewritten bid list still holds active bids, the new highestBid is
an active bid of maximal amount among them and currentPrice becomes that
amount; when several active bids tie for the maximum, the LAST one
encountered in bid-list order wins (everything after the winner is
strictly smaller). -/
theorem cancelBid_highest_recompute_max (w : Wallet) (bidId : String)
    (s : BiddingState) (aid : String) (b : Bid) (a : Auction) (hb : Bid)
    (bs : List Bid) (h : Bid) (t : List Bid)
    (hw : walletMissing w = false)
    (hfind : findUserBid s.bids bidId (walletAddress w) = some (aid, b))
    (ha : mapGet s.auctions aid = some a)
    (hact : a.status = AuctionStatus.active)
    (hhb : a.highestBid = some hb)
    (hid : hb.id = bidId)
    (hbs : mapGet s.bids aid = some bs)
    (hactive : (cancelFirstMatch bs bidId (walletAddress w)).filter
      (fun x => x.status == BidStatus.active) = h :: t) :
    (cancelBid w bidId s).1 = CancelResult.cancelled b ∧
    mapGet (cancelBid w bidId s).2.auctions aid =
      some { a with
             highestBid := some (reduceHighest h t)
             currentPrice := (reduceHighest h t).amount } ∧
    (reduceHighest h t).status = BidStatus.active ∧
    reduceHighest h t ∈ h :: t ∧
    (∀ c ∈ h :: t, c.amount ≤ (reduceHighest h t).amount) ∧
    ∃ pre post, h :: t = pre ++ (reduceHighest h t) :: post ∧
      ∀ c ∈ post, c.amount < (reduceHighest h t).amount := by
  have hstat : (reduceHighest h t).status = BidStatus.active := by
    have hmem : reduceHighest h t ∈ (cancelFirstMatch bs bidId
        (walletAddress w)).filter (fun x => x.status == BidStatus.active) := by
      rw [hactive]
      exact reduceHighest_mem h t
    have := (List.mem_filter.1 hmem).2
    simpa using this
  rw [cancelBid_highest_eq w bidId s aid b a hb bs hw hfind ha hact hhb hid
    hbs, hactive]
  exact ⟨rfl, mapGet_mapSet_self _ _ _, hstat, reduceHighest_mem h t,
    reduceHighest_ge h t, reduceHighest_last h t⟩

/-- C7 amended witness: at the counterexample store, the recomputed
highest is c7b2, the last of the two tied active bids. -/
theorem cancelBid_highest_recompute_max_witness :
    (cancelBid { connected := true, publicKey := some "carol" } "bh"
      c7State).1 = CancelResult.cancelled c7bh ∧
    mapGet (cancelBid { connected := true, publicKey := some "carol" } "bh"
      c7State).2.auctions "a" =
      some { c7Auction with
             highestBid := some (reduceHighest c7b1 [c7b2])
             currentPrice := (reduceHighest c7b1 [c7b2]).amount } ∧
    (reduceHighest c7b1 [c7b2]).status = BidStatus.active ∧
    reduceHighest c7b1 [c7b2] ∈ [c7b1, c7b2] ∧
    (∀ c ∈ [c7b1, c7b2], c.amount ≤ (reduceHighest c7b1 [c7b2]).amount) ∧
    ∃ pre post, [c7b1, c7b2] = pre ++ (reduceHighest c7b1 [c7b2]) :: post ∧
      ∀ c ∈ post, c.amount < (reduceHighest c7b1 [c7b2]).amount :=
  cancelBid_highest_recompute_max
    { connected := true, publicKey := some "carol" } "bh" c7State "a" c7bh
    c7Auction c7bh [c7b1, c7b2, c7bh] c7b1 [c7b2] (by decide) (by decide)
    (by decide) (by decide) (by decide) (by decide) (by decide) (by decide)

/-- A successful cancelBid refunds exactly the bid located by the
ownership-scoped search. -/
theorem cancelBid_cancelled_found (w : Wallet) (bidId : String)
    (s : BiddingState) (b : Bid)
    (h : (cancelBid w bidId s).1 = CancelResult.cancelled b) :
    ∃ aid, findUserBid s.bids bidId (walletAddress w) = some (aid, b) := by
  by_cases hw : walletMissing w
  · unfold cancelBid at h
    simp [hw] at h
  · cases hf : findUserBid s.bids bidId (walletAddress w) with
    | none =>
        unfold cancelBid at h
        simp [hw, hf] at h
    | some p =>
        obtain ⟨aid, fb⟩ := p
        refine ⟨aid, ?_⟩
        unfold cancelBid at h
        simp only [hw, Bool.false_eq_true, if_false, hf] at h
        have hfb : fb = b := by
          repeat' split at h
          all_goals simp_all
        rw [hfb]

/-- C8: cancelBid is scoped by ownership.  A successful call refunds a
bid whose id is the requested one and whose bidder is the caller's
address, drawn from some auction's bid list; and when every bid carrying
that id belongs to a different bidder, the call fails with BidNotFound and
the state is unchanged, so a caller can never cancel another bidder's
bid. -/
theorem cancelBid_ownership (w : Wallet) (bidId : String)
    (s : BiddingState) :
    (∀ b, (cancelBid w bidId s).1 = CancelResult.cancelled b →
      b.id = bidId ∧ b.bidder = walletAddress w ∧
      ∃ aid bs, (aid, bs) ∈ s.bids ∧ b ∈ bs) ∧
    (walletMissing w = false →
      (∀ p ∈ s.bids, ∀ c ∈ p.2,
        ¬(c.id = bidId ∧ c.bidder = walletAddress w)) →
      cancelBid w bidId s = (CancelResult.bidNotFound, s)) := by
  constructor
  · intro b hb
    obtain ⟨aid, hf⟩ := cancelBid_cancelled_found w bidId s b hb
    obtain ⟨bs, hmem, hin, hi, had⟩ :=
      findUserBid_some s.bids bidId (walletAddress w) aid b hf
    exact ⟨hi, had, aid, bs, hmem, hin⟩
  · intro hw hnone
    have hf : findUserBid s.bids bidId (walletAddress w) = none :=
      findUserBid_eq_none s.bids bidId (walletAddress w) hnone
    unfold cancelBid
    simp [hw, hf]

/-- C8 witness: alice cannot cancel bob's bid b1 — the call reports
BidNotFound and leaves the state untouched. -/
theorem cancelBid_ownership_witness :
    cancelBid { connected := true, publicKey := some "alice" } "b1"
      c6State = (CancelResult.bidNotFound, c6State) :=
  (cancelBid_ownership { connected := true, publicKey := some "alice" }
    "b1" c6State).2 (by decide) (by decide)

theorem ratThreePointOne_eq_div : ratThreePointOne = 31 / 10 := by
  rw [show ratThreePointOne = (⟨31, 10, by decide, by decide⟩ : ℚ) from
    rfl, Rat.mk'_eq_divInt, Rat.divInt_eq_div]
  norm_num

/-- Facts recovered from a passing placeBid validation: the wallet is
connected, the auction is active and unexpired, and the offered amount
strictly exceeds the currentPrice read during validation. -/
theorem placeBidValidate_none_facts (w : Wallet) (aid : String) (amt : ℚ)
    (now : ℕ) (s : BiddingState) (a : Auction)
    (ha : mapGet s.auctions aid = some a)
    (h : placeBidValidate w aid amt now s = none) :
    walletMissing w = false ∧ a.status = AuctionStatus.active ∧
    ¬a.endTime < now ∧ a.currentPrice < amt := by
  by_cases hw : walletMissing w
  · simp [placeBidValidate, hw] at h
  · simp only [placeBidValidate, hw, Bool.false_eq_true, if_false, ha] at h
    by_cases h1 : a.status ≠ AuctionStatus.active
    · simp [h1] at h
    · simp only [h1, if_false] at h
      by_cases h2 : a.endTime < now
      · simp [h2] at h
      · simp only [h2, if_false] at h
        by_cases h3 : amt ≤ a.currentPrice
        · simp [h3] at h
        · exact ⟨eq_false_of_ne_true hw, not_not.1 h1, h2, lt_of_not_le h3⟩

/-- Faithfulness of the validate/commit split: when validation passes and
the payment succeeds, placeBid coincides with placeBidCommit run on the
same state, returning the same new bid — the split only makes the
suspension point at the payment await explicit. -/
theorem placeBid_eq_commit_of_validate (w : Wallet) (aid : String)
    (amt : ℚ) (now : ℕ) (nid : String) (s : BiddingState)
    (h : placeBidValidate w aid amt now s = none) :
    ∃ b, (placeBidCommit w aid amt now nid s).1 = some b ∧
      placeBid w aid amt now nid true s =
        (.ok b, (placeBidCommit w aid amt now nid s).2) := by
  by_cases hw : walletMissing w
  · simp [placeBidValidate, hw] at h
  · cases ha : mapGet s.auctions aid with
    | none => simp [placeBidValidate, hw, ha] at h
    | some a =>
        obtain ⟨-, h1, h2, h3⟩ :=
          placeBidValidate_none_facts w aid amt now s a ha h
        have h1' : ¬a.status ≠ AuctionStatus.active := by simp [h1]
        have h3' : ¬amt ≤ a.currentPrice := not_le_of_lt h3
        refine ⟨{ id := nid, nftId := a.nftId, bidder := walletAddress w,
                  amount := amt, timestamp := now, status := .active },
          ?_, ?_⟩ <;>
          simp [placeBid, placeBidCommit, hw, ha, h1', h2, h3']

/-- C9 counterexample: both bids (3 by dana, 3.1 by erin) pass validation
on the same pre-race state, as the code's suspension at the payment await
permits; when the 3.1 commit lands first and the 3.0 commit lands second,
both calls succeed, yet the recorded highestBid and currentPrice are those
of the LOWER bid 3 — the higher bid 3.1 does not end up recorded, refuting
the claimed at-most-one-higher-wins outcome. -/
theorem placeBid_race_lower_bid_wins_counterexample :
    placeBidValidate { connected := true, publicKey := some "dana" } "a" 3
      10 c9State = none ∧
    placeBidValidate { connected := true, publicKey := some "erin" } "a"
      ratThreePointOne 10 c9State = none ∧
    (3 : ℚ) < ratThreePointOne ∧
    (placeBidCommit { connected := true, publicKey := some "erin" } "a"
      ratThreePointOne 10 "bidB" c9State).1.isSome = true ∧
    (placeBidCommit { connected := true, publicKey := some "dana" } "a" 3
      10 "bidA"
      (placeBidCommit { connected := true, publicKey := some "erin" } "a"
        ratThreePointOne 10 "bidB" c9State).2).1.isSome = true ∧
    ((mapGet (placeBidCommit { connected := true, publicKey := some "dana" }
      "a" 3 10 "bidA"
      (placeBidCommit { connected := true, publicKey := some "erin" } "a"
        ratThreePointOne 10 "bidB" c9State).2).2.auctions "a").bind
      Auction.highestBid).map Bid.amount = some 3 ∧
    (mapGet (placeBidCommit { connected := true, publicKey := some "dana" }
      "a" 3 10 "bidA"
      (placeBidCommit { connected := true, publicKey := some "erin" } "a"
        ratThreePointOne 10 "bidB" c9State).2).2.auctions "a").map
      Auction.currentPrice = some 3 := by decide

/-- C9 amended: when two placeBid calls both pass validation against the
same state before either commits — the interleaving the code's unguarded
suspension at the payment await permits — both commits succeed and are
both appended as active bids; the recorded highestBid and currentPrice are
those of whichever commit runs last, regardless of which amount is higher.
The price cannot remain at its pre-race value, since every validated
amount strictly exceeds it. -/
theorem placeBid_race_last_commit_wins (w1 w2 : Wallet) (aid : String)
    (amt1 amt2 : ℚ) (now : ℕ) (id1 id2 : String) (s : BiddingState)
    (a : Auction)
    (ha : mapGet s.auctions aid = some a)
    (hv1 : placeBidValidate w1 aid amt1 now s = none)
    (hv2 : placeBidValidate w2 aid amt2 now s = none) :
    a.currentPrice < amt1 ∧ a.currentPrice < amt2 ∧
    ∃ b1 b2,
      (placeBidCommit w1 aid amt1 now id1 s).1 = some b1 ∧
      (placeBidCommit w2 aid amt2 now id2
        (placeBidCommit w1 aid amt1 now id1 s).2).1 = some b2 ∧
      b1.amount = amt1 ∧ b2.amount = amt2 ∧
      (mapGet (placeBidCommit w2 aid amt2 now id2
        (placeBidCommit w1 aid amt1 now id1 s).2).2.auctions aid).map
        Auction.currentPrice = some amt2 ∧
      ((mapGet (placeBidCommit w2 aid amt2 now id2
        (placeBidCommit w1 aid amt1 now id1 s).2).2.auctions aid).bind
        Auction.highestBid) = some b2 := by
  obtain ⟨-, -, -, hlt1⟩ :=
    placeBidValidate_none_facts w1 aid amt1 now s a ha hv1
  obtain ⟨-, -, -, hlt2⟩ :=
    placeBidValidate_none_facts w2 aid amt2 now s a ha hv2
  refine ⟨hlt1, hlt2,
    { id := id1, nftId := a.nftId, bidder := walletAddress w1,
      amount := amt1, timestamp := now, status := .active },
    { id := id2, nftId := a.nftId, bidder := walletAddress w2,
      amount := amt2, timestamp := now, status := .active },
    ?_, ?_, rfl, rfl, ?_, ?_⟩ <;>
    simp [placeBidCommit, ha, mapGet_mapSet_self]

/-- C9 amended witness: the concrete race of scenario F with pre-race
price 2, the 3.1 bid committing first and the 3.0 bid committing last:
both succeed and the recorded highest is the last, lower one. -/
theorem placeBid_race_last_commit_wins_witness :
    c9Auction.currentPrice < ratThreePointOne ∧
    c9Auction.currentPrice < 3 ∧
    ∃ b1 b2,
      (placeBidCommit { connected := true, publicKey := some "erin" } "a"
        ratThreePointOne 10 "bidB" c9State).1 = some b1 ∧
      (placeBidCommit { connected := true, publicKey := some "dana" } "a"
        3 10 "bidA"
        (placeBidCommit { connected := true, publicKey := some "erin" }
          "a" ratThreePointOne 10 "bidB" c9State).2).1 = some b2 ∧
      b1.amount = ratThreePointOne ∧ b2.amount = 3 ∧
      (mapGet (placeBidCommit
        { connected := true, publicKey := some "dana" } "a" 3 10 "bidA"
        (placeBidCommit { connected := true, publicKey := some "erin" }
          "a" ratThreePointOne 10 "bidB"
          c9State).2).2.auctions "a").map Auction.currentPrice = some 3 ∧
      ((mapGet (placeBidCommit
        { connected := true, publicKey := some "dana" } "a" 3 10 "bidA"
        (placeBidCommit { connected := true, publicKey := some "erin" }
          "a" ratThreePointOne 10 "bidB"
          c9State).2).2.auctions "a").bind Auction.highestBid) = some b2 :=
  placeBid_race_last_commit_wins
    { connected := true, publicKey := some "erin" }
    { connected := true, publicKey := some "dana" } "a" ratThreePointOne 3
    10 "bidB" "bidA" c9State c9Auction (by decide) (by decide) (by decide)

/-- Shape of a successful placeBid: the auction is rewritten with the new
price, highest bid and bid counter, and the new bid is appended to the
auction's list. -/
theorem placeBid_success_eq (w : Wallet) (aid : String) (amt : ℚ)
    (now : ℕ) (nid : String) (s : BiddingState) (a : Auction)
    (hw : walletMissing w = false)
    (ha : mapGet s.auctions aid = some a)
    (h1 : a.status = AuctionStatus.active)
    (h2 : ¬a.endTime < now)
    (h3 : ¬amt ≤ a.currentPrice) :
    placeBid w aid amt now nid true s =
      (.ok
        { id := nid
          nftId := a.nftId
          bidder := walletAddress w
          amount := amt
          timestamp := now
          status := .active },
        { auctions := mapSet s.auctions aid
            { a with
              currentPrice := amt
              highestBid := some
                { id := nid
                  nftId := a.nftId
                  bidder := walletAddress w
                  amount := amt
                  timestamp := now
                  status := .active }
              totalBids := a.totalBids + 1 }
          bids := mapSet s.bids aid
            (((mapGet s.bids aid).getD []) ++
              [{ id := nid
                 nftId := a.nftId
                 bidder := walletAddress w
                 amount := amt
                 timestamp := now
                 status := .active }]) }) := by
  have h1' : ¬a.status ≠ AuctionStatus.active := by simp [h1]
  simp [placeBid, hw, ha, h1', h2, h3]

theorem createAuction_priceInv (w : Wallet) (nftId : String) (sp : ℚ)
    (dur : ℕ) (rp : Option ℚ) (now : ℕ) (nid : String) (s : BiddingState)
    (h : PriceInv s) :
    PriceInv (createAuction w nftId sp dur rp now nid s).2 := by
  by_cases hw : walletMissing w
  · simpa [createAuction, hw] using h
  · intro k a hk
    simp only [createAuction, hw, Bool.false_eq_true, if_false] at hk ⊢
    by_cases hkn : k = nid
    · subst hkn
      rw [mapGet_mapSet_self] at hk
      obtain rfl : _ = a := Option.some.inj hk
      refine ⟨le_refl _, ?_⟩
      rw [mapGet_mapSet_self]
      simp
    · rw [mapGet_mapSet_ne _ _ _ _ hkn] at hk
      rw [mapGet_mapSet_ne _ _ _ _ hkn]
      exact h k a hk

theorem placeBid_priceInv (w : Wallet) (aid : String) (amt : ℚ) (now : ℕ)
    (nid : String) (pay : Bool) (s : BiddingState) (h : PriceInv s) :
    PriceInv (placeBid w aid amt now nid pay s).2 := by
  by_cases hw : walletMissing w
  · simpa [placeBid, hw] using h
  · cases ha : mapGet s.auctions aid with
    | none => simpa [placeBid, hw, ha] using h
    | some a =>
        by_cases h1 : a.status ≠ AuctionStatus.active
        · simpa [placeBid, hw, ha, h1] using h
        · by_cases h2 : a.endTime < now
          · simpa [placeBid, hw, ha, h1, h2] using h
          · by_cases h3 : amt ≤ a.currentPrice
            · simpa [placeBid, hw, ha, h1, h2, h3] using h
            · cases pay with
              | false => simpa [placeBid, hw, ha, h1, h2, h3] using h
              | true =>
                  have hwf : walletMissing w = false := by simpa using hw
                  have h1' : a.status = AuctionStatus.active := not_not.1 h1
                  rw [placeBid_success_eq w aid amt now nid s a hwf ha h1'
                    h2 h3]
                  obtain ⟨hsp, hbids⟩ := h aid a ha
                  have hamt : a.startingPrice ≤ amt :=
                    le_of_lt (lt_of_le_of_lt hsp (lt_of_not_le h3))
                  intro k a' hk
                  by_cases hkaid : k = aid
                  · subst hkaid
                    simp only [mapGet_mapSet_self, Option.some.injEq] at hk
                    subst hk
                    refine ⟨hamt, ?_⟩
                    simp only [mapGet_mapSet_self, Option.getD_some]
                    intro b hb
                    rcases List.mem_append.1 hb with hb | hb
                    · exact hbids b hb
                    · simp only [List.mem_singleton] at hb
                      subst hb
                      exact hamt
                  · simp only [mapGet_mapSet_ne _ _ _ _ hkaid] at hk ⊢
                    exact h k a' hk

theorem endAuction_priceInv (aid : String) (s : BiddingState)
    (h : PriceInv s) : PriceInv (endAuction aid s).2 := by
  cases ha : mapGet s.auctions aid with
  | none => simpa [endAuction, ha] using h
  | some a =>
      by_cases h1 : a.status ≠ AuctionStatus.active
      · simpa [endAuction, ha, h1] using h
      · simp only [endAuction, ha, h1, if_false]
        intro k a' hk
        by_cases hkaid : k = aid
        · subst hkaid
          simp only [mapGet_mapSet_self, Option.some.injEq] at hk
          subst hk
          obtain ⟨hsp, hbids⟩ := h k a ha
          exact ⟨hsp, hbids⟩
        · simp only [mapGet_mapSet_ne _ _ _ _ hkaid] at hk
          exact h k a' hk

/-- Shape of a successful cancelBid, with the re-read of the rewritten bid
list already resolved: the found bid is cancelled in its auction's list,
and if it was the highestBid the auction record is recomputed. -/
theorem cancelBid_found_eq (w : Wallet) (bidId : String) (s : BiddingState)
    (aid : String) (b : Bid) (a : Auction)
    (hw : walletMissing w = false)
    (hfind : findUserBid s.bids bidId (walletAddress w) = some (aid, b))
    (ha : mapGet s.auctions aid = some a)
    (hact : a.status = AuctionStatus.active) :
    cancelBid w bidId s =
      (match a.highestBid with
       | some hb =>
         if hb.id = bidId then
           match (cancelFirstMatch ((mapGet s.bids aid).getD []) bidId
               (walletAddress w)).filter
               (fun x => x.status == BidStatus.active) with
           | [] =>
              (.cancelled b,
                { auctions := mapSet s.auctions aid
                    { a with
                      highestBid := none
                      currentPrice := a.startingPrice }
                  bids := mapSet s.bids aid
                    (cancelFirstMatch ((mapGet s.bids aid).getD []) bidId
                      (walletAddress w)) })
           | h :: t =>
              (.cancelled b,
                { auctions := mapSet s.auctions aid
                    { a with
                      highestBid := some (reduceHighest h t)
                      currentPrice := (reduceHighest h t).amount }
                  bids := mapSet s.bids aid
                    (cancelFirstMatch ((mapGet s.bids aid).getD []) bidId
                      (walletAddress w)) })
         else
           (.cancelled b,
             { auctions := s.auctions
               bids := mapSet s.bids aid
                 (cancelFirstMatch ((mapGet s.bids aid).getD []) bidId
                   (walletAddress w)) })
       | none =>
           (.cancelled b,
             { auctions := s.auctions
               bids := mapSet s.bids aid
                 (cancelFirstMatch ((mapGet s.bids aid).getD []) bidId
                   (walletAddress w)) })) := by
  have hact' : ¬a.status ≠ AuctionStatus.active := by simp [hact]
  unfold cancelBid
  simp only [hw, Bool.false_eq_true, if_false, hfind, ha, hact', ite_false,
    mapGet_mapSet_self, Option.getD_some]

theorem cancelBid_priceInv (w : Wallet) (bidId : String) (s : BiddingState)
    (h : PriceInv s) : PriceInv (cancelBid w bidId s).2 := by
  by_cases hw : walletMissing w
  · simpa [cancelBid, hw] using h
  · cases hf : findUserBid s.bids bidId (walletAddress w) with
    | none => simpa [cancelBid, hw, hf] using h
    | some p =>
        obtain ⟨aid, fb⟩ := p
        cases ha : mapGet s.auctions aid with
        | none => simpa [cancelBid, hw, hf, ha] using h
        | some a =>
            by_cases hact : a.status = AuctionStatus.active
            · have hwf : walletMissing w = false := by simpa using hw
              rw [cancelBid_found_eq w bidId s aid fb a hwf hf ha hact]
              obtain ⟨hsp, hbids⟩ := h aid a ha
              have hnewBids : ∀ b' ∈ cancelFirstMatch
                  ((mapGet s.bids aid).getD []) bidId (walletAddress w),
                  a.startingPrice ≤ b'.amount := by
                intro b' hb'
                obtain ⟨c, hc, hce⟩ := cancelFirstMatch_amounts
                  ((mapGet s.bids aid).getD []) bidId (walletAddress w) b'
                  hb'
                rw [hce]
                exact hbids c hc
              have hother : ∀ (au : List (String × Auction)),
                  au = s.auctions →
                  PriceInv { auctions := au
                             bids := mapSet s.bids aid
                               (cancelFirstMatch
                                 ((mapGet s.bids aid).getD []) bidId
                                 (walletAddress w)) } := by
                rintro au rfl
                intro k a' hk
                obtain ⟨hsp', hbids'⟩ := h k a' hk
                refine ⟨hsp', ?_⟩
                by_cases hkaid : k = aid
                · subst hkaid
                  simp only [mapGet_mapSet_self, Option.getD_some]
                  have : a'.startingPrice = a.startingPrice := by
                    rw [hk] at ha
                    obtain rfl : a' = a := Option.some.inj ha
                    rfl
                  rw [this]
                  exact hnewBids
                · simp only [mapGet_mapSet_ne _ _ _ _ hkaid]
                  exact hbids'
              cases hhb : a.highestBid with
              | none => exact hother s.auctions rfl
              | some hb =>
                  by_cases hid : hb.id = bidId
                  · simp only [hid, if_true]
                    cases hfa : (cancelFirstMatch
                        ((mapGet s.bids aid).getD []) bidId
                        (walletAddress w)).filter
                        (fun x => x.status == BidStatus.active) with
                    | nil =>
                        intro k a' hk
                        by_cases hkaid : k = aid
                        · subst hkaid
                          simp only [mapGet_mapSet_self,
                            Option.some.injEq] at hk
                          subst hk
                          refine ⟨le_refl _, ?_⟩
                          simp only [mapGet_mapSet_self, Option.getD_some]
                          exact hnewBids
                        · simp only [mapGet_mapSet_ne _ _ _ _ hkaid] at hk
                          obtain ⟨hsp', hbids'⟩ := h k a' hk
                          refine ⟨hsp', ?_⟩
                          simp only [mapGet_mapSet_ne _ _ _ _ hkaid]
                          exact hbids'
                    | cons hd tl =>
                        have hrh : reduceHighest hd tl ∈
                            cancelFirstMatch ((mapGet s.bids aid).getD [])
                              bidId (walletAddress w) := by
                          have hm := reduceHighest_mem hd tl
                          rw [← hfa] at hm
                          exact List.mem_of_mem_filter hm
                        have hrha : a.startingPrice ≤
                            (reduceHighest hd tl).amount :=
                          hnewBids _ hrh
                        intro k a' hk
                        by_cases hkaid : k = aid
                        · subst hkaid
                          simp only [mapGet_mapSet_self,
                            Option.some.injEq] at hk
                          subst hk
                          refine ⟨hrha, ?_⟩
                          simp only [mapGet_mapSet_self, Option.getD_some]
                          exact hnewBids
                        · simp only [mapGet_mapSet_ne _ _ _ _ hkaid] at hk
                          obtain ⟨hsp', hbids'⟩ := h k a' hk
                          refine ⟨hsp', ?_⟩
                          simp only [mapGet_mapSet_ne _ _ _ _ hkaid]
                          exact hbids'
                  · simp only [hid, if_false]
                    exact hother s.auctions rfl
            · simpa [cancelBid, hw, hf, ha, hact] using h

/-- Every reachable bidding state satisfies the price invariant. -/
theorem reachable_priceInv (s : BiddingState) (h : Reachable s) :
    PriceInv s := by
  induction h with
  | init => intro k a hk; simp [mapGet] at hk
  | create w nftId sp dur rp now nid s _ ih =>
      exact createAuction_priceInv w nftId sp dur rp now nid s ih
  | place w aid amt now nid pay s _ ih =>
      exact placeBid_priceInv w aid amt now nid pay s ih
  | endA aid s _ ih => exact endAuction_priceInv aid s ih
  | cancel w bidId s _ ih => exact cancelBid_priceInv w bidId s ih

/-- C2: in every state reachable by any sequence of createAuction,
placeBid, endAuction and cancelBid operations, every stored auction
satisfies currentPrice at least startingPrice. -/
theorem reachable_currentPrice_ge_startingPrice (s : BiddingState)
    (h : Reachable s) (k : String) (a : Auction)
    (hk : mapGet s.auctions k = some a) :
    a.startingPrice ≤ a.currentPrice :=
  (reachable_priceInv s h k a hk).1

/-- C2 witness: the reachable state after creating auction a1 at price 1
and bidding 2 satisfies the invariant at a1. -/
theorem reachable_currentPrice_ge_startingPrice_witness :
    c6Auction.startingPrice ≤ c6Auction.currentPrice :=
  reachable_currentPrice_ge_startingPrice c6State
    (Reachable.place { connected := true, publicKey := some "bob" } "a1" 2
      5 "b1" true
      (createAuction { connected := true, publicKey := some "alice" }
        "nft1" 1 24 none 0 "a1" { auctions := [], bids := [] }).2
      (Reachable.create { connected := true, publicKey := some "alice" }
        "nft1" 1 24 none 0 "a1" { auctions := [], bids := [] }
        Reachable.init))
    "a1" c6Auction (by decide)

/-- placeBid on an auction that is not active always fails with its state
untouched, whatever the wallet or payment outcome. -/
theorem placeBid_notActive_fails (w : Wallet) (aid : String) (amt : ℚ)
    (now : ℕ) (nid : String) (pay : Bool) (s : BiddingState) (a : Auction)
    (ha : mapGet s.auctions aid = some a)
    (hterm : a.status ≠ AuctionStatus.active) :
    (∃ e, (placeBid w aid amt now nid pay s).1 = .error e) ∧
    (placeBid w aid amt now nid pay s).2 = s := by
  by_cases hw : walletMissing w
  · exact ⟨⟨.walletNotConnected, by simp [placeBid, hw]⟩,
      by simp [placeBid, hw]⟩
  · exact ⟨⟨.auctionNotActive, by simp [placeBid, hw, ha, hterm]⟩,
      by simp [placeBid, hw, ha, hterm]⟩

theorem placeBid_auctions_of_ne (w : Wallet) (aid' : String) (amt : ℚ)
    (now : ℕ) (nid : String) (pay : Bool) (s : BiddingState) (k : String)
    (hk : k ≠ aid') :
    mapGet ((placeBid w aid' amt now nid pay s).2).auctions k =
      mapGet s.auctions k := by
  unfold placeBid
  repeat' split
  all_goals simp [mapGet_mapSet_ne _ _ _ _ hk]

theorem endAuction_auctions_of_ne (aid' : String) (s : BiddingState)
    (k : String) (hk : k ≠ aid') :
    mapGet ((endAuction aid' s).2).auctions k = mapGet s.auctions k := by
  unfold endAuction
  repeat' split
  all_goals simp [mapGet_mapSet_ne _ _ _ _ hk]

theorem createAuction_auctions_of_ne (w : Wallet) (nft : String) (sp : ℚ)
    (dur : ℕ) (rp : Option ℚ) (now : ℕ) (nid : String) (s : BiddingState)
    (k : String) (hk : k ≠ nid) :
    mapGet ((createAuction w nft sp dur rp now nid s).2).auctions k =
      mapGet s.auctions k := by
  unfold createAuction
  split
  · rfl
  · simp [mapGet_mapSet_ne _ _ _ _ hk]

/-- C3: a terminal auction (status ended or cancelled) is frozen.  Every
placeBid or endAuction aimed at it, and every cancelBid whose
ownership-scoped search resolves to one of its bids, fails with the whole
state unchanged; and no invocation of any of the four operations (with a
fresh id for createAuction) alters the stored record of that auction, so
no operation ever sets its status back to active. -/
theorem terminal_auction_frozen (s : BiddingState) (aid : String)
    (a : Auction) (ha : mapGet s.auctions aid = some a)
    (hterm : a.status ≠ AuctionStatus.active) :
    (∀ w amt now nid pay,
      (∃ e, (placeBid w aid amt now nid pay s).1 = .error e) ∧
      (placeBid w aid amt now nid pay s).2 = s) ∧
    ((endAuction aid s).1 = EndResult.auctionNotActive ∧
      (endAuction aid s).2 = s) ∧
    (∀ w bidId b,
      findUserBid s.bids bidId (walletAddress w) = some (aid, b) →
      (∀ b', (cancelBid w bidId s).1 ≠ CancelResult.cancelled b') ∧
      (cancelBid w bidId s).2 = s) ∧
    (∀ w aid' amt now nid pay,
      mapGet ((placeBid w aid' amt now nid pay s).2).auctions aid =
        some a) ∧
    (∀ aid', mapGet ((endAuction aid' s).2).auctions aid = some a) ∧
    (∀ w bidId, mapGet ((cancelBid w bidId s).2).auctions aid = some a) ∧
    (∀ w nft sp dur rp now nid, nid ≠ aid →
      mapGet ((createAuction w nft sp dur rp now nid s).2).auctions aid =
        some a) := by
  refine ⟨?_, ?_, ?_, ?_, ?_, ?_, ?_⟩
  · intro w amt now nid pay
    exact placeBid_notActive_fails w aid amt now nid pay s a ha hterm
  · constructor <;> simp [endAuction, ha, hterm]
  · intro w bidId b hf
    by_cases hw : walletMissing w
    · exact ⟨fun b' => by simp [cancelBid, hw], by simp [cancelBid, hw]⟩
    · exact ⟨fun b' => by simp [cancelBid, hw, hf, ha, hterm],
        by simp [cancelBid, hw, hf, ha, hterm]⟩
  · intro w aid' amt now nid pay
    by_cases hk : aid' = aid
    · subst hk
      rw [(placeBid_notActive_fails w aid' amt now nid pay s a ha
        hterm).2]
      exact ha
    · rw [placeBid_auctions_of_ne w aid' amt now nid pay s aid
        (fun hh => hk hh.symm)]
      exact ha
  · intro aid'
    by_cases hk : aid' = aid
    · subst hk
      have : (endAuction aid' s).2 = s := by simp [endAuction, ha, hterm]
      rw [this]
      exact ha
    · rw [endAuction_auctions_of_ne aid' s aid (fun hh => hk hh.symm)]
      exact ha
  · intro w bidId
    by_cases hw : walletMissing w
    · simp [cancelBid, hw, ha]
    · cases hf : findUserBid s.bids bidId (walletAddress w) with
      | none => simp [cancelBid, hw, hf, ha]
      | some p =>
          obtain ⟨aid2, fb⟩ := p
          by_cases haid : aid2 = aid
          · subst haid
            simp [cancelBid, hw, hf, ha, hterm]
          · have hne : aid ≠ aid2 := fun hh => haid hh.symm
            unfold cancelBid
            simp only [hw, Bool.false_eq_true, if_false, hf]
            repeat' split
            all_goals simp [ha, mapGet_mapSet_ne _ _ _ _ hne]
  · intro w nft sp dur rp now nid hnid
    rw [createAuction_auctions_of_ne w nft sp dur rp now nid s aid
      (fun hh => hnid hh.symm)]
    exact ha

/-- C3 witness: ending the already-ended auction a1 fails and leaves the
state untouched. -/
theorem terminal_auction_frozen_witness :
    (endAuction "a1" c3State).1 = EndResult.auctionNotActive ∧
    (endAuction "a1" c3State).2 = c3State :=
  (terminal_auction_frozen c3State "a1" c3Auction (by decide)
    (by decide)).2.1

end ArtisanPlaza
